import Mathlib

/-
Verification of the Mython-style interpreter (lexer, runtime object model and
AST evaluator).

The development is a shallow embedding of the C++ sources:
  * the indentation-sensitive lexer (`Lexer`, lexer.h and its implementation
    file): tokens, per-line tokenisation, synthetic Indent/Dedent/Newline/Eof
    markers, and the materialised-stream cursor (`CurrentToken`/`NextToken`);
  * the runtime object model (runtime.cpp / runtime.h): `ObjectHolder`
    references (modelled as optional heap addresses), values, closures,
    classes with single inheritance, `Class::GetMethod`,
    `ClassInstance::HasMethod`, `ClassInstance::Call`, `IsTrue`, and the
    comparison helper `Less`;
  * the AST node semantics (statement.cpp / statement.h): `Execute` of the
    nodes the claims are about, with the `return`-as-unwind protocol made
    explicit as a result constructor.

Modelling conventions:
  * machine integers are `Int` (no claim depends on 32-bit overflow);
  * the C++ `std::istream` input of the lexer is a list of lines, each a list
    of characters (`getline` splits on a newline character);
  * the output stream is the list of the strings written to it, in order (the
    observable output is their concatenation);
  * `ObjectHolder` is `ObjRef`: either the empty handle or the address of a
    heap cell; `ObjectHolder::Own` allocates a fresh cell at the end of the
    heap, `ObjectHolder::Share` reuses an existing address;
  * C++ exceptions are explicit result constructors: `runtime_error` becomes
    an `err` result and the thrown `ObjectHolder` of `Return::Execute`
    becomes a `ret` result, caught only by `MethodBody`;
  * the evaluator's (mutual) recursion is bounded by an explicit fuel
    counter; running out of fuel is the separate result `timeout`, and every
    theorem about the evaluator is stated for arbitrary sufficient fuel.
-/

namespace Mython

/-! ### Tokens (lexer.h, namespace parse::token_type)

One constructor per alternative of the C++ `TokenBase` variant.  Token
equality (`operator==`) compares the variant tag and, for the valued
alternatives, the payload, which is exactly the derived decidable equality. -/

inductive Tok where
  | num (v : Int)
  | id (v : String)
  | chr (v : Char)
  | str (v : String)
  | kwClass
  | kwReturn
  | kwIf
  | kwElse
  | kwDef
  | newline
  | kwPrint
  | indent
  | dedent
  | kwAnd
  | kwOr
  | kwNot
  | eq
  | notEq
  | lessOrEq
  | greaterOrEq
  | kwNone
  | kwTrue
  | kwFalse
  | eof

deriving instance DecidableEq for Tok

/-- Body tokens: the tokens `Lexer::LoadTokens` can push.  They are the
non-structural alternatives of `Tok` (everything except `Newline`, `Indent`,
`Dedent` and `Eof`, which are pushed only by `LoadEndl`, `LoadTab`,
`LoadDedent` and `LoadEof`). -/
inductive BTok where
  | num (v : Int)
  | id (v : String)
  | chr (v : Char)
  | str (v : String)
  | kwClass
  | kwReturn
  | kwIf
  | kwElse
  | kwDef
  | kwPrint
  | kwAnd
  | kwOr
  | kwNot
  | kwNone
  | kwTrue
  | kwFalse
  | eq
  | notEq
  | lessOrEq
  | greaterOrEq

deriving instance DecidableEq for BTok

/-- Injection of a body token into the token type. -/
def bTokToTok : BTok → Tok
  | .num v => .num v
  | .id v => .id v
  | .chr v => .chr v
  | .str v => .str v
  | .kwClass => .kwClass
  | .kwReturn => .kwReturn
  | .kwIf => .kwIf
  | .kwElse => .kwElse
  | .kwDef => .kwDef
  | .kwPrint => .kwPrint
  | .kwAnd => .kwAnd
  | .kwOr => .kwOr
  | .kwNot => .kwNot
  | .kwNone => .kwNone
  | .kwTrue => .kwTrue
  | .kwFalse => .kwFalse
  | .eq => .eq
  | .notEq => .notEq
  | .lessOrEq => .lessOrEq
  | .greaterOrEq => .greaterOrEq

/-! ### Character classes of the lexer -/

/-- The single-quote character (written by code point to keep character
literals simple). -/
def squote : Char := Char.ofNat 39

/-- Lexer::IsChar: the punctuation set. The braces are written by code
point. -/
def isCharTok (c : Char) : Bool :=
  c = '.' ∨ c = ',' ∨ c = '(' ∨ c = '+' ∨ c = ')' ∨ c = '-' ∨ c = '*' ∨
  c = '/' ∨ c = ':' ∨ c = '@' ∨ c = '%' ∨ c = '$' ∨ c = '^' ∨ c = '&' ∨
  c = ';' ∨ c = '?' ∨ c = '=' ∨ c = '<' ∨ c = '>' ∨ c = '!' ∨
  c = Char.ofNat 123 ∨ c = Char.ofNat 125 ∨ c = '[' ∨ c = ']'

/-- Lexer::special_operators_: the characters that may begin a two-character
operator. -/
def isSpecialOp (c : Char) : Bool := c = '=' ∨ c = '!' ∨ c = '<' ∨ c = '>'

/-- Lexer::special_symbols_: the characters allowed after a backslash in a
string literal. -/
def isSpecialSym (c : Char) : Bool :=
  c = squote ∨ c = '"' ∨ c = 'n' ∨ c = 't'

/-- A quote character (either kind). -/
def isQuote (c : Char) : Bool := c = '"' ∨ c = squote

/-- A word constituent (underscore or alphanumeric), as in `Lexer::LoadWord`. -/
def isWordChar (c : Char) : Bool := c = '_' ∨ c.isAlphanum

/-! ### Lexer::ReadString

`ReadString(input, pred)` consumes characters while `pred` holds, handling
backslash escapes, and puts the first failing character back unless it is a
quote.  When the input ends inside the loop no character is put back (the
stale terminator check of the source cannot fire a putback in that case for
the predicates actually used).  Returns the collected characters and the
remaining input. -/
def readString (pred : Char → Bool) : List Char → List Char × List Char
  | [] => ([], [])
  | c :: cs =>
    if ¬ pred c then
      ([], if isQuote c then cs else c :: cs)
    else if c = '\\' then
      match cs with
      | [] => ([], [])
      | ch :: cs' =>
        if isSpecialSym ch then
          let t := if ch = 'n' then '\n' else if ch = 't' then '\t' else ch
          let r := readString pred cs'
          (t :: r.1, r.2)
        else
          readString pred cs'
    else
      let r := readString pred cs
      (c :: r.1, r.2)

/-- Decimal value of a digit run (`stoi` in `Lexer::LoadNumber`). -/
def digitsToInt (ds : List Char) : Int :=
  Int.ofNat (ds.foldl (fun n c => n * 10 + (c.toNat - 48)) 0)

/-- Lexer::key_words_token_: keyword lookup in `LoadWord`; a non-keyword word
becomes an `Id`. -/
def wordTok (w : String) : BTok :=
  if w = "class" then .kwClass
  else if w = "return" then .kwReturn
  else if w = "if" then .kwIf
  else if w = "else" then .kwElse
  else if w = "def" then .kwDef
  else if w = "print" then .kwPrint
  else if w = "and" then .kwAnd
  else if w = "or" then .kwOr
  else if w = "not" then .kwNot
  else if w = "None" then .kwNone
  else if w = "True" then .kwTrue
  else if w = "False" then .kwFalse
  else .id w

/-- Lexer::special_operators_token_: the compound operator for one of
`= ! < >` followed by `=` (`LoadSign`). -/
def opTok (c : Char) : BTok :=
  if c = '=' then .eq
  else if c = '!' then .notEq
  else if c = '<' then .lessOrEq
  else .greaterOrEq

/-- Result of tokenising one line body: the token list, or `stuck` when the
C++ loop would spin forever on a character outside every recognised class,
or `out` when the fuel bound is exhausted (which cannot happen for the fuel
`length + 1` used by `parseLineTokens`, since every step consumes at least
one character). -/
inductive LTRes where
  | done (ts : List BTok)
  | stuck
  | out

deriving instance DecidableEq for LTRes

/-- Prepend a token to a successful tokenisation result. -/
def consDone (t : BTok) : LTRes → LTRes
  | .done ts => .done (t :: ts)
  | r => r

/-- Lexer::LoadTokens, one recognised lexeme at a time.  The C++ loop body is
a sequence of independent `if`s each inspecting the next character, which is
step-for-step equivalent to dispatching on the next character afresh after
each consumed lexeme (each `if` looks at `input.peek()` and the checks are
attempted in the same order).  A character outside every class makes the C++
loop spin without consuming input; that is the explicit `stuck` result. -/
def loadTokens : Nat → List Char → LTRes
  | 0, _ => .out
  | _ + 1, [] => .done []
  | fuel + 1, c :: cs =>
    if c = ' ' then loadTokens fuel cs
    else if c = '#' then .done []
    else if c.isDigit then
      let r := readString Char.isDigit (c :: cs)
      consDone (.num (digitsToInt r.1)) (loadTokens fuel r.2)
    else if isQuote c then
      let r := readString (fun x => x ≠ c) cs
      consDone (.str (String.mk r.1)) (loadTokens fuel r.2)
    else if c = '_' ∨ c.isAlpha then
      let r := readString isWordChar (c :: cs)
      consDone (wordTok (String.mk r.1)) (loadTokens fuel r.2)
    else if isCharTok c then
      if isSpecialOp c then
        match cs with
        | '=' :: cs' => consDone (opTok c) (loadTokens fuel cs')
        | _ => consDone (.chr c) (loadTokens fuel cs)
      else consDone (.chr c) (loadTokens fuel cs)
    else .stuck

/-- Lexer::LoadIndent loop: while `ind < k`, raise `ind` by 2 and push an
`Indent`.  Returns the number of pushed tokens and the final `indent_size`.
The fuel bound `k` passed by `loadIndent` always suffices. -/
def loadIndentF : Nat → Nat → Nat → Nat × Nat
  | 0, ind, _ => (0, ind)
  | fuel + 1, ind, k =>
    if ind < k then
      let r := loadIndentF fuel (ind + 2) k
      (r.1 + 1, r.2)
    else (0, ind)

/-- Lexer::LoadDedent loop: while `ind > k`, lower `ind` by 2 and push a
`Dedent`.  The fuel bound `ind` passed by `loadDedent` always suffices. -/
def loadDedentF : Nat → Nat → Nat → Nat × Nat
  | 0, ind, _ => (0, ind)
  | fuel + 1, ind, k =>
    if k < ind then
      let r := loadDedentF fuel (ind - 2) k
      (r.1 + 1, r.2)
    else (0, ind)

/-- Lexer::LoadIndent (count of pushed `Indent` tokens, new `indent_size`). -/
def loadIndent (ind k : Nat) : Nat × Nat := loadIndentF k ind k

/-- Lexer::LoadDedent (count of pushed `Dedent` tokens, new `indent_size`). -/
def loadDedent (ind k : Nat) : Nat × Nat := loadDedentF ind ind k

/-- Lexer::LoadTab: with `k` leading spaces, either raise the indentation
(emitting `Indent`s) when `k > indent_size`, or lower it (emitting `Dedent`s,
possibly none) otherwise; `k = 0` is the no-leading-space branch calling
`LoadDedent(0)`.  Returns the token count, which token, and the new
`indent_size`. -/
def loadTab (ind k : Nat) : (Nat × Tok) × Nat :=
  if k > ind then
    let r := loadIndent ind k
    ((r.1, Tok.indent), r.2)
  else
    let r := loadDedent ind k
    ((r.1, Tok.dedent), r.2)

/-- Number of leading spaces of a line. -/
def countLeadingSpaces : List Char → Nat
  | [] => 0
  | c :: cs => if c = ' ' then countLeadingSpaces cs + 1 else 0

/-- Lexer::StringIsEmpty: only spaces, or spaces followed by a `#` comment. -/
def stringIsEmpty : List Char → Bool
  | [] => true
  | c :: cs => if c = ' ' then stringIsEmpty cs else c = '#'

/-- Lexer::LoadEndl: push a `Newline` unless the stream is empty or already
ends with one. -/
def loadEndl (ts : List Tok) : List Tok :=
  match ts.getLast? with
  | some t => if t = Tok.newline then ts else ts ++ [Tok.newline]
  | none => ts

/-- Lexer::ParseString for one line: `LoadTab` on the leading spaces, then
`LoadTokens` on the rest.  `none` when the body tokenisation diverges. -/
def parseLineTokens (ind : Nat) (line : List Char) : Option (List Tok × Nat) :=
  let k := countLeadingSpaces line
  let rest := line.drop k
  let tab := loadTab ind k
  match loadTokens (rest.length + 1) rest with
  | .done body => some (List.replicate tab.1.1 tab.1.2 ++ body.map bTokToTok, tab.2)
  | _ => none

/-- The line loop of Lexer::ParseTextOnTokens: skip blank/comment lines,
otherwise parse the line and run `LoadEndl`.  Threads the accumulated token
stream and the current `indent_size`. -/
def processLines : List (List Char) → List Tok → Nat → Option (List Tok × Nat)
  | [], acc, ind => some (acc, ind)
  | l :: ls, acc, ind =>
    if stringIsEmpty l then processLines ls acc ind
    else
      match parseLineTokens ind l with
      | some (ts, ind') => processLines ls (loadEndl (acc ++ ts)) ind'
      | none => none

/-- Lexer::ParseTextOnTokens: process all lines, then `LoadDedent()` down to
indentation 0 and `LoadEof`.  (The constructor's final `NextToken()` call is
part of `mkLexer` below.) -/
def parseTextOnTokens (lines : List (List Char)) : Option (List Tok) :=
  match processLines lines [] 0 with
  | some (acc, ind) =>
    some ((acc ++ List.replicate (loadDedent ind 0).1 Tok.dedent) ++ [Tok.eof])
  | none => none

/-! ### The lexer cursor (Lexer::CurrentToken / Lexer::NextToken) -/

/-- Lexer state after construction: the materialised stream, the cursor
`current_index_`, and `current_token_`. -/
structure LexState where
  tokens : List Tok
  idx : Nat
  cur : Tok

deriving instance DecidableEq for LexState

/-- Lexer::NextToken: if the cursor is inside the stream, load the token at
the cursor into `current_token_` and move the cursor; otherwise leave
everything unchanged.  Returns the new state and the returned token. -/
def nextToken (st : LexState) : LexState × Tok :=
  if st.idx < st.tokens.length then
    let t := st.tokens.getD st.idx Tok.eof
    (⟨st.tokens, st.idx + 1, t⟩, t)
  else (st, st.cur)

/-- The lexer constructor on an already-materialised stream: `current_token_`
is default-constructed (the first variant, a zero `Number`) and the
constructor ends with one `NextToken()` call. -/
def mkLexer (ts : List Tok) : LexState := (nextToken ⟨ts, 0, Tok.num 0⟩).1

/-- Iterated `NextToken` calls. -/
def advanceN : Nat → LexState → LexState
  | 0, st => st
  | n + 1, st => advanceN n (nextToken st).1

/-! ### Counting tokens and the adjacency relation -/

/-- Number of occurrences of a token in a stream. -/
def countTok (t : Tok) : List Tok → Nat
  | [] => 0
  | x :: xs => (if x = t then 1 else 0) + countTok t xs

theorem countTok_append (t : Tok) (l1 l2 : List Tok) :
    countTok t (l1 ++ l2) = countTok t l1 + countTok t l2 := by
  induction l1 with
  | nil => simp [countTok]
  | cons x xs ih =>
    show (if x = t then 1 else 0) + countTok t (xs ++ l2) =
      ((if x = t then 1 else 0) + countTok t xs) + countTok t l2
    rw [ih]
    omega

theorem countTok_replicate (t u : Tok) (n : Nat) :
    countTok t (List.replicate n u) = if u = t then n else 0 := by
  induction n with
  | zero => simp [countTok]
  | succ n ih =>
    rw [List.replicate_succ]
    simp only [countTok, ih]
    split <;> omega

theorem countTok_eq_zero (t : Tok) (l : List Tok) (h : ∀ x ∈ l, x ≠ t) :
    countTok t l = 0 := by
  induction l with
  | nil => rfl
  | cons x xs ih =>
    simp only [countTok]
    rw [if_neg (h x (by simp)), ih (fun z hz => h z (by simp [hz]))]

theorem ne_of_countTok_zero (t : Tok) (l : List Tok) (h : countTok t l = 0) :
    ∀ x ∈ l, x ≠ t := by
  induction l with
  | nil => simp
  | cons x xs ih =>
    simp only [countTok] at h
    intro z hz
    rcases List.mem_cons.1 hz with rfl | hz'
    · intro he; rw [if_pos he] at h; omega
    · exact ih (by omega) z hz'

/-- Two adjacent tokens are not both `Newline`. -/
def NotNN (a b : Tok) : Prop := ¬(a = Tok.newline ∧ b = Tok.newline)

theorem chain'_of_no_newline (l : List Tok) (h : ∀ x ∈ l, x ≠ Tok.newline) :
    List.Chain' NotNN l := by
  induction l with
  | nil => exact List.chain'_nil
  | cons x xs ih =>
    cases xs with
    | nil => exact List.chain'_singleton x
    | cons y ys =>
      rw [List.chain'_cons]
      refine ⟨fun hc => h x (by simp) hc.1, ?_⟩
      exact ih (fun z hz => h z (by simp [hz]))

theorem chain'_append_no_newline (l ch : List Tok) (hl : List.Chain' NotNN l)
    (hch : ∀ x ∈ ch, x ≠ Tok.newline) : List.Chain' NotNN (l ++ ch) := by
  rw [List.chain'_append]
  refine ⟨hl, chain'_of_no_newline ch hch, ?_⟩
  intro x _ y hy hbad
  exact hch y (List.mem_of_mem_head? hy) hbad.2

/-! ### Facts about the indentation loops -/

theorem loadIndentF_spec (fuel : Nat) : ∀ ind k,
    (loadIndentF fuel ind k).2 = ind + 2 * (loadIndentF fuel ind k).1 := by
  induction fuel with
  | zero => intro ind k; simp [loadIndentF]
  | succ n ih =>
    intro ind k
    simp only [loadIndentF]
    split
    · have := ih (ind + 2) k
      simp only []
      omega
    · simp

theorem loadDedentF_spec (fuel : Nat) : ∀ ind k, ind % 2 = 0 →
    (loadDedentF fuel ind k).2 % 2 = 0 ∧
      ind = (loadDedentF fuel ind k).2 + 2 * (loadDedentF fuel ind k).1 := by
  induction fuel with
  | zero => intro ind k h; simp [loadDedentF, h]
  | succ n ih =>
    intro ind k h
    simp only [loadDedentF]
    split
    · have hlt : k < ind := by assumption
      have := ih (ind - 2) k (by omega)
      simp only []
      omega
    · simp [h]

theorem loadDedentF_zero (fuel : Nat) : ∀ ind, ind ≤ fuel →
    (loadDedentF fuel ind 0).2 = 0 := by
  induction fuel with
  | zero => intro ind h; simp only [loadDedentF]; omega
  | succ n ih =>
    intro ind h
    simp only [loadDedentF]
    split
    · exact ih (ind - 2) (by omega)
    · omega

theorem loadDedent_zero (ind : Nat) : (loadDedent ind 0).2 = 0 :=
  loadDedentF_zero ind ind (Nat.le_refl ind)

/-! ### Facts about one parsed line -/

theorem bTokToTok_not_structural (b : BTok) :
    bTokToTok b ≠ Tok.newline ∧ bTokToTok b ≠ Tok.eof ∧
      bTokToTok b ≠ Tok.indent ∧ bTokToTok b ≠ Tok.dedent := by
  cases b <;> simp [bTokToTok]

theorem parseLineTokens_facts (ind : Nat) (l : List Char) (ts : List Tok) (ind' : Nat)
    (h : parseLineTokens ind l = some (ts, ind')) (hev : ind % 2 = 0) :
    (∀ x ∈ ts, x ≠ Tok.newline ∧ x ≠ Tok.eof) ∧ ind' % 2 = 0 ∧
      2 * countTok Tok.indent ts + ind = 2 * countTok Tok.dedent ts + ind' := by
  simp only [parseLineTokens] at h
  set k := countLeadingSpaces l with hk
  set rest := l.drop k with hrest
  cases hlt : loadTokens (rest.length + 1) rest with
  | done body =>
    rw [hlt] at h
    simp only [Option.some.injEq, Prod.mk.injEq] at h
    obtain ⟨hts, hind'⟩ := h
    have hbody : ∀ x ∈ body.map bTokToTok,
        x ≠ Tok.newline ∧ x ≠ Tok.eof ∧ x ≠ Tok.indent ∧ x ≠ Tok.dedent := by
      intro x hx
      obtain ⟨b, _, rfl⟩ := List.mem_map.1 hx
      exact bTokToTok_not_structural b
    have hbodyI : countTok Tok.indent (body.map bTokToTok) = 0 :=
      countTok_eq_zero _ _ (fun x hx => (hbody x hx).2.2.1)
    have hbodyD : countTok Tok.dedent (body.map bTokToTok) = 0 :=
      countTok_eq_zero _ _ (fun x hx => (hbody x hx).2.2.2)
    subst hts hind'
    constructor
    · intro x hx
      rcases List.mem_append.1 hx with hx' | hx'
      · have := List.eq_of_mem_replicate hx'
        subst this
        simp only [loadTab]
        split <;> simp
      · exact ⟨(hbody x hx').1, (hbody x hx').2.1⟩
    · simp only [loadTab]
      split
      · -- Indent branch: the new indent size is ind + 2 * (number of Indents)
        have hspec := loadIndentF_spec k ind k
        simp only [loadIndent] at *
        rw [countTok_append, countTok_append, countTok_replicate, countTok_replicate]
        simp only [hbodyI, hbodyD]
        simp only [reduceCtorEq, if_true, if_false, reduceIte]
        omega
      · -- Dedent branch: ind = new indent size + 2 * (number of Dedents)
        have hspec := loadDedentF_spec ind ind k hev
        simp only [loadDedent] at *
        rw [countTok_append, countTok_append, countTok_replicate, countTok_replicate]
        simp only [hbodyI, hbodyD]
        simp only [reduceCtorEq, if_true, if_false, reduceIte]
        omega
  | stuck => rw [hlt] at h; cases h
  | out => rw [hlt] at h; cases h

/-! ### Facts about LoadEndl -/

theorem loadEndl_countTok (t : Tok) (ht : t ≠ Tok.newline) (l : List Tok) :
    countTok t (loadEndl l) = countTok t l := by
  unfold loadEndl
  cases h : l.getLast? with
  | none => rfl
  | some x =>
    show countTok t (if x = Tok.newline then l else l ++ [Tok.newline]) = countTok t l
    by_cases hx : x = Tok.newline
    · rw [if_pos hx]
    · rw [if_neg hx, countTok_append]
      simp [countTok, Ne.symm ht]

theorem loadEndl_chain' (l : List Tok) (hl : List.Chain' NotNN l) :
    List.Chain' NotNN (loadEndl l) := by
  unfold loadEndl
  cases h : l.getLast? with
  | none => exact hl
  | some x =>
    show List.Chain' NotNN (if x = Tok.newline then l else l ++ [Tok.newline])
    by_cases hx : x = Tok.newline
    · rw [if_pos hx]; exact hl
    · rw [if_neg hx, List.chain'_append]
      refine ⟨hl, List.chain'_singleton _, ?_⟩
      intro a ha b _ hbad
      rw [h] at ha
      simp only [Option.mem_def, Option.some.injEq] at ha
      subst ha
      exact hx hbad.1

/-! ### The line-loop invariant -/

/-- Invariant of the token accumulator and `indent_size` maintained by the
line loop of `ParseTextOnTokens`: the indentation is even and equals twice
the Indent surplus, no `Eof` has been pushed, and no two `Newline`s are
adjacent. -/
def LexInv (acc : List Tok) (ind : Nat) : Prop :=
  ind % 2 = 0 ∧
  2 * countTok Tok.indent acc = 2 * countTok Tok.dedent acc + ind ∧
  countTok Tok.eof acc = 0 ∧
  List.Chain' NotNN acc

theorem processLines_inv (lines : List (List Char)) : ∀ acc ind acc' ind',
    processLines lines acc ind = some (acc', ind') → LexInv acc ind →
      LexInv acc' ind' := by
  induction lines with
  | nil =>
    intro acc ind acc' ind' h hinv
    simp only [processLines, Option.some.injEq, Prod.mk.injEq] at h
    obtain ⟨rfl, rfl⟩ := h
    exact hinv
  | cons l ls ih =>
    intro acc ind acc' ind' h hinv
    simp only [processLines] at h
    split at h
    · exact ih acc ind acc' ind' h hinv
    · cases hpl : parseLineTokens ind l with
      | none => rw [hpl] at h; cases h
      | some p =>
        obtain ⟨ts2, ind2⟩ := p
        rw [hpl] at h
        obtain ⟨hev, hbal, heof, hch⟩ := hinv
        obtain ⟨hmem, hev2, hline⟩ := parseLineTokens_facts ind l ts2 ind2 hpl hev
        refine ih _ _ acc' ind' h ⟨hev2, ?_, ?_, ?_⟩
        · rw [loadEndl_countTok Tok.indent (by simp) _,
            loadEndl_countTok Tok.dedent (by simp) _,
            countTok_append, countTok_append]
          omega
        · rw [loadEndl_countTok Tok.eof (by simp) _, countTok_append]
          rw [heof, countTok_eq_zero Tok.eof ts2 (fun x hx => (hmem x hx).2)]
        · exact loadEndl_chain' _
            (chain'_append_no_newline acc ts2 hch (fun x hx => (hmem x hx).1))

/-- Shape of a successfully materialised stream: a front with no `Eof`,
followed by exactly one `Eof`; no two adjacent `Newline`s; Indent and Dedent
balanced. -/
theorem parseTextOnTokens_shape (lines : List (List Char)) (ts : List Tok)
    (h : parseTextOnTokens lines = some ts) :
    ∃ front, ts = front ++ [Tok.eof] ∧ countTok Tok.eof front = 0 ∧
      List.Chain' NotNN ts ∧
      countTok Tok.indent ts = countTok Tok.dedent ts := by
  simp only [parseTextOnTokens] at h
  cases hp : processLines lines [] 0 with
  | none => rw [hp] at h; cases h
  | some p =>
    obtain ⟨acc, ind⟩ := p
    rw [hp] at h
    simp only [Option.some.injEq] at h
    simp only [loadDedent] at h
    have hinv : LexInv acc ind :=
      processLines_inv lines [] 0 acc ind hp
        ⟨rfl, by simp [countTok], by simp [countTok], List.chain'_nil⟩
    obtain ⟨hev, hbal, heof, hch⟩ := hinv
    have hded := loadDedentF_spec ind ind 0 hev
    have hdz : (loadDedent ind 0).2 = 0 := loadDedent_zero ind
    simp only [loadDedent] at hdz
    refine ⟨acc ++ List.replicate (loadDedentF ind ind 0).1 Tok.dedent, ?_, ?_, ?_, ?_⟩
    · rw [← h]
    · rw [countTok_append, heof, countTok_replicate]
      simp
    · rw [← h, List.append_assoc]
      refine chain'_append_no_newline acc _ hch ?_
      intro x hx
      rcases List.mem_append.1 hx with hx' | hx'
      · rw [List.eq_of_mem_replicate hx']; simp
      · simp only [List.mem_singleton] at hx'; rw [hx']; simp
    · rw [← h]
      rw [countTok_append, countTok_append, countTok_append, countTok_append,
        countTok_replicate, countTok_replicate]
      simp only [countTok, reduceCtorEq, if_false, if_true, reduceIte]
      omega

/-! ### The cursor invariant -/

theorem getD_front_ne_eof (front : List Tok) : ∀ i, countTok Tok.eof front = 0 →
    i < front.length → (front ++ [Tok.eof]).getD i Tok.eof ≠ Tok.eof := by
  induction front with
  | nil => intro i _ hi; simp at hi
  | cons x xs ih =>
    intro i h0 hi
    simp only [countTok] at h0
    cases i with
    | zero =>
      simp only [List.cons_append, List.getD_cons_zero]
      intro he
      rw [if_pos he] at h0
      omega
    | succ j =>
      simp only [List.cons_append, List.getD_cons_succ]
      exact ih j (by omega) (by simpa using hi)

/-- Invariant of the cursor state: the stored stream is the parsed one, the
cursor never passes the end, and the current token is `Eof` only when the
cursor is at the end. -/
def CurInv (ts : List Tok) (st : LexState) : Prop :=
  st.tokens = ts ∧ st.idx ≤ ts.length ∧ (st.cur = Tok.eof → st.idx = ts.length)

theorem nextToken_inv (front : List Tok) (st : LexState)
    (h0 : countTok Tok.eof front = 0)
    (hinv : CurInv (front ++ [Tok.eof]) st) :
    CurInv (front ++ [Tok.eof]) (nextToken st).1 := by
  obtain ⟨htoks, hle, hcur⟩ := hinv
  unfold nextToken
  split
  · rename_i hlt
    rw [htoks] at hlt
    have hlen : (front ++ [Tok.eof]).length = front.length + 1 := by simp
    refine ⟨htoks, ?_, ?_⟩
    · show st.idx + 1 ≤ (front ++ [Tok.eof]).length
      omega
    · intro he
      have he' : (front ++ [Tok.eof]).getD st.idx Tok.eof = Tok.eof := by
        rw [← htoks]; exact he
      show st.idx + 1 = (front ++ [Tok.eof]).length
      by_contra hne
      exact getD_front_ne_eof front st.idx h0 (by omega) he'
  · exact ⟨htoks, hle, hcur⟩

theorem advanceN_inv (front : List Tok) (n : Nat) : ∀ st,
    countTok Tok.eof front = 0 → CurInv (front ++ [Tok.eof]) st →
      CurInv (front ++ [Tok.eof]) (advanceN n st) := by
  induction n with
  | zero => intro st _ hinv; exact hinv
  | succ m ih =>
    intro st h0 hinv
    exact ih _ h0 (nextToken_inv front st h0 hinv)

theorem mkLexer_inv (front : List Tok) (h0 : countTok Tok.eof front = 0) :
    CurInv (front ++ [Tok.eof]) (mkLexer (front ++ [Tok.eof])) := by
  unfold mkLexer
  refine nextToken_inv front _ h0 ⟨rfl, by simp, ?_⟩
  intro he
  cases he

/-! ## Claim C1

The claim states that for every well-formed source the materialised stream
ends with exactly one `Eof`, that the token immediately preceding `Eof` is
never a `Newline`, and that no two `Newline` tokens are adjacent.  The
"never preceded by a Newline" part is refuted by the one-line source `a`:
`ParseTextOnTokens` pushes `Newline` after the last real line (`LoadEndl`)
and then appends `Eof` directly (`LoadDedent` pushes nothing at indentation
0), so the stream is `[Id "a", Newline, Eof]`. -/

/-- Counterexample to C1 as stated: for the source consisting of the single
line `a`, the materialised token stream is `[Id "a", Newline, Eof]`, and the
token immediately preceding the final `Eof` (the last token of the stream
with `Eof` dropped) is a `Newline`. -/
theorem C1_counterexample :
    parseTextOnTokens [['a']] = some [Tok.id "a", Tok.newline, Tok.eof] ∧
      (List.dropLast [Tok.id "a", Tok.newline, Tok.eof]).getLast? =
        some Tok.newline := by
  constructor
  · rfl
  · rfl

/-- C1, amended: for every source whose tokenisation terminates, the
materialised stream contains exactly one `Eof`, which is its last token, and
no two `Newline` tokens are ever adjacent in the stream.  (The claim's
further part, that the token before `Eof` is never a `Newline`, is false:
see the counterexample.) -/
theorem C1_stream_shape (lines : List (List Char)) (ts : List Tok)
    (h : parseTextOnTokens lines = some ts) :
    countTok Tok.eof ts = 1 ∧ ts.getLast? = some Tok.eof ∧
      List.Chain' NotNN ts := by
  obtain ⟨front, rfl, h0, hch, _⟩ := parseTextOnTokens_shape lines ts h
  refine ⟨?_, ?_, hch⟩
  · rw [countTok_append, h0]; rfl
  · exact List.getLast?_concat front

/-- Witness for C1: the amended statement evaluated on the two-line source
`a` / `  b`. -/
theorem C1_witness :
    parseTextOnTokens [['a'], [' ', ' ', 'b']] =
      some [Tok.id "a", Tok.newline, Tok.indent, Tok.id "b", Tok.newline,
        Tok.dedent, Tok.eof] ∧
    (countTok Tok.eof [Tok.id "a", Tok.newline, Tok.indent, Tok.id "b",
        Tok.newline, Tok.dedent, Tok.eof] = 1 ∧
      [Tok.id "a", Tok.newline, Tok.indent, Tok.id "b", Tok.newline,
        Tok.dedent, Tok.eof].getLast? = some Tok.eof ∧
      List.Chain' NotNN [Tok.id "a", Tok.newline, Tok.indent, Tok.id "b",
        Tok.newline, Tok.dedent, Tok.eof]) :=
  ⟨rfl, C1_stream_shape [['a'], [' ', ' ', 'b']] _ rfl⟩

/-! ## Claim C4

Indent/Dedent balance over the full stream, and `indent_size` restored to
zero before `Eof` is appended. -/

/-- C4: for every source whose tokenisation terminates, the stream holds as
many `Indent` as `Dedent` tokens; moreover, after the line loop the final
`LoadDedent()` call drives `indent_size` to exactly zero, before `LoadEof`
appends the `Eof` token. -/
theorem C4_indent_balance (lines : List (List Char)) (ts : List Tok)
    (h : parseTextOnTokens lines = some ts) :
    countTok Tok.indent ts = countTok Tok.dedent ts ∧
      (∀ acc ind, processLines lines [] 0 = some (acc, ind) →
        (loadDedent ind 0).2 = 0) := by
  obtain ⟨front, rfl, _, _, hbal⟩ := parseTextOnTokens_shape lines ts h
  exact ⟨hbal, fun acc ind _ => loadDedent_zero ind⟩

/-- Witness for C4: the balance evaluated on the indented source
`a` / `  b` / `    c` (which leaves two levels open for the final
`LoadDedent`). -/
theorem C4_witness :
    parseTextOnTokens [['a'], [' ', ' ', 'b'], [' ', ' ', ' ', ' ', 'c']] =
      some [Tok.id "a", Tok.newline, Tok.indent, Tok.id "b", Tok.newline,
        Tok.indent, Tok.id "c", Tok.newline, Tok.dedent, Tok.dedent,
        Tok.eof] ∧
    countTok Tok.indent [Tok.id "a", Tok.newline, Tok.indent, Tok.id "b",
        Tok.newline, Tok.indent, Tok.id "c", Tok.newline, Tok.dedent,
        Tok.dedent, Tok.eof] =
      countTok Tok.dedent [Tok.id "a", Tok.newline, Tok.indent, Tok.id "b",
        Tok.newline, Tok.indent, Tok.id "c", Tok.newline, Tok.dedent,
        Tok.dedent, Tok.eof] :=
  ⟨rfl,
    (C4_indent_balance [['a'], [' ', ' ', 'b'], [' ', ' ', ' ', ' ', 'c']] _
      rfl).1⟩

/-! ## Claim C5

`NextToken` at `Eof` is idempotent: once the current token is `Eof`, the
cursor is at the end of the stream, so `NextToken` leaves the state
unchanged and keeps returning `Eof`. -/

/-- C5: for every reachable lexer state (the constructor on a materialised
stream followed by any number of `NextToken` calls) whose current token is
`Eof`, `NextToken` moves nothing, returns `Eof`, keeps `Eof` current, and
any number of further calls leaves the state unchanged. -/
theorem C5_advance_past_eof_idempotent (lines : List (List Char))
    (ts : List Tok) (n : Nat) (st : LexState)
    (hp : parseTextOnTokens lines = some ts)
    (hst : advanceN n (mkLexer ts) = st)
    (heof : st.cur = Tok.eof) :
    nextToken st = (st, Tok.eof) ∧ ∀ m, advanceN m st = st := by
  obtain ⟨front, rfl, h0, _, _⟩ := parseTextOnTokens_shape lines ts hp
  have hinv : CurInv (front ++ [Tok.eof]) st := by
    rw [← hst]
    exact advanceN_inv front n _ h0 (mkLexer_inv front h0)
  obtain ⟨htoks, _, hcur⟩ := hinv
  have hidx : st.idx = (front ++ [Tok.eof]).length := hcur heof
  have hfix : nextToken st = (st, Tok.eof) := by
    unfold nextToken
    rw [if_neg (by rw [htoks, hidx]; omega), heof]
  refine ⟨hfix, ?_⟩
  intro m
  induction m with
  | zero => rfl
  | succ k ihm =>
    show advanceN k (nextToken st).1 = st
    rw [hfix]
    exact ihm

/-- Witness for C5: on the source `a`, after the constructor and two
`NextToken` calls the current token is `Eof`, and one more `NextToken` call
returns `Eof` without changing the state. -/
theorem C5_witness :
    parseTextOnTokens [['a']] = some [Tok.id "a", Tok.newline, Tok.eof] ∧
      nextToken ⟨[Tok.id "a", Tok.newline, Tok.eof], 3, Tok.eof⟩ =
        (⟨[Tok.id "a", Tok.newline, Tok.eof], 3, Tok.eof⟩, Tok.eof) :=
  ⟨rfl,
    (C5_advance_past_eof_idempotent [['a']] [Tok.id "a", Tok.newline, Tok.eof]
      2 ⟨[Tok.id "a", Tok.newline, Tok.eof], 3, Tok.eof⟩ rfl rfl rfl).1⟩

/-! ### The runtime object model (runtime.h / runtime.cpp)

`ObjectHolder` is a possibly-empty reference to a heap cell.  `Own`
allocates at the end of the heap; `Share` reuses an address.  The execution
context's output stream is the list of writes performed on it. -/

/-- Heap address of an object. -/
abbrev Addr := Nat

/-- ObjectHolder: the empty handle (`ObjectHolder::None`) or a reference to
a heap cell. -/
inductive ObjRef where
  | none
  | addr (a : Addr)

deriving instance DecidableEq for ObjRef

/-- runtime::Closure: an unordered map from names to object references,
modelled as an association list (insertion order is irrelevant to lookup). -/
abbrev Closure := List (String × ObjRef)

/-- Map lookup (`count` / `at`). -/
def lookupName : Closure → String → Option ObjRef
  | [], _ => Option.none
  | (k, v) :: rest, n => if k = n then some v else lookupName rest n

/-- Map assignment `closure[name] = value`: overwrite or insert. -/
def setName : Closure → String → ObjRef → Closure
  | [], n, v => [(n, v)]
  | (k, w) :: rest, n, v =>
    if k = n then (n, v) :: rest else (k, w) :: setName rest n v

/-- Map `emplace`: insert only when the key is absent. -/
def emplaceName (c : Closure) (n : String) (v : ObjRef) : Closure :=
  match lookupName c n with
  | some _ => c
  | none => (n, v) :: c

/-! ### Classes, methods and AST statements (runtime.h / statement.h)

`Method::body` is an executable statement, so classes and statements are
mutually inductive.  Only the node kinds the claims are about are embedded.
A `ValueStatement` (`NumericConst` etc.) owns its value and `Execute`
returns a shared reference to it; its node therefore carries the heap
address at which the node-owned object lives (`valueConst`).  Likewise a
`NewInstance` node owns a `ClassInstance` member `cls_` constructed (with
empty fields) together with the node; the node carries that member's heap
address `instAddr`. -/

mutual

inductive ClassT where
  | mk (name : String) (methods : List MethodT) (parent : Option ClassT)

inductive MethodT where
  | mk (name : String) (formalParams : List String) (body : Stmt)

inductive Stmt where
  | valueConst (a : Addr)
  | variableValue (dottedIds : List String)
  | assignment (var : String) (rv : Stmt)
  | fieldAssignment (objectIds : List String) (fieldName : String) (rv : Stmt)
  | noneStmt
  | print (args : List Stmt)
  | methodCall (object : Stmt) (method : String) (args : List Stmt)
  | newInstance (cls : ClassT) (instAddr : Addr) (args : List Stmt)
  | div (lhs rhs : Stmt)
  | orStmt (lhs rhs : Stmt)
  | andStmt (lhs rhs : Stmt)
  | compound (stmts : List Stmt)
  | methodBody (body : Stmt)
  | returnStmt (stmt : Stmt)
  | ifElse (condition ifBody : Stmt) (elseBody : Option Stmt)

end

/-- Class name accessor. -/
def ClassT.name : ClassT → String
  | .mk n _ _ => n

/-- Class method-list accessor. -/
def ClassT.methods : ClassT → List MethodT
  | .mk _ ms _ => ms

/-- Method name accessor. -/
def MethodT.name : MethodT → String
  | .mk n _ _ => n

/-- Method formal-parameter accessor. -/
def MethodT.formalParams : MethodT → List String
  | .mk _ ps _ => ps

/-- Method body accessor. -/
def MethodT.body : MethodT → Stmt
  | .mk _ _ b => b

/-- A heap cell: one of the five runtime object kinds.  `inst` is a
ClassInstance: its class and its fields. -/
inductive Value where
  | num (v : Int)
  | str (v : String)
  | bool (v : Bool)
  | cls (c : ClassT)
  | inst (c : ClassT) (fields : Closure)

/-- Interpreter state: the heap and the output stream (the list of writes,
whose concatenation is the observable output). -/
structure State where
  heap : List Value
  output : List String

/-- ObjectHolder::Own: allocate a fresh cell at the end of the heap (its
address is the current heap length). -/
def alloc (s : State) (v : Value) : State := ⟨s.heap ++ [v], s.output⟩

/-- One write to the context's output stream. -/
def pushOut (s : State) (t : String) : State := ⟨s.heap, s.output ++ [t]⟩

/-- Dereference a holder (`Get`). -/
def heapGet (h : List Value) (r : ObjRef) : Option Value :=
  match r with
  | ObjRef.none => Option.none
  | .addr a => h.get? a

/-- TryAs for Number. -/
def getNum (h : List Value) (r : ObjRef) : Option Int :=
  match heapGet h r with
  | some (.num v) => some v
  | _ => Option.none

/-- TryAs for String. -/
def getStr (h : List Value) (r : ObjRef) : Option String :=
  match heapGet h r with
  | some (.str v) => some v
  | _ => Option.none

/-- TryAs for Bool. -/
def getBool (h : List Value) (r : ObjRef) : Option Bool :=
  match heapGet h r with
  | some (.bool v) => some v
  | _ => Option.none

/-- TryAs for ClassInstance, returning the address of the instance. -/
def instAddrOf (h : List Value) (r : ObjRef) : Option Addr :=
  match r with
  | ObjRef.none => Option.none
  | .addr a =>
    match h.get? a with
    | some (.inst _ _) => some a
    | _ => Option.none

/-- Update one field of the instance at address `a`
(`Fields()[field_name_] = value`).  The cell at `a` is an instance whenever
this is reached. -/
def setField (s : State) (a : Addr) (f : String) (v : ObjRef) : State :=
  match s.heap.get? a with
  | some (.inst c flds) => ⟨s.heap.set a (.inst c (setName flds f v)), s.output⟩
  | _ => s

/-- runtime::IsTrue: nonzero Number, nonempty String, or a true Bool; every
other reference (including the empty one, classes and instances) is falsy. -/
def isTrue (s : State) (r : ObjRef) : Bool :=
  match heapGet s.heap r with
  | some (.num v) => v != 0
  | some (.str t) => t != ""
  | some (.bool b) => b
  | _ => false

/-- First method with a given name in declaration order (the scan loop of
`Class::GetMethod`). -/
def findMethod : List MethodT → String → Option MethodT
  | [], _ => Option.none
  | m :: ms, n => if m.name = n then some m else findMethod ms n

/-- Class::GetMethod: own methods first in declaration order, then the
parent chain; the first match by name wins regardless of arity. -/
def getMethod : ClassT → String → Option MethodT
  | .mk _ ms p, n =>
    match findMethod ms n with
    | some m => some m
    | none =>
      match p with
      | some parent => getMethod parent n
      | none => Option.none

/-- ClassInstance::HasMethod: resolution succeeds and the resolved method's
formal-parameter count equals the argument count. -/
def hasMethod (c : ClassT) (m : String) (k : Nat) : Bool :=
  match getMethod c m with
  | some meth => decide (meth.formalParams.length = k)
  | none => false

/-- The argument-binding loop of `ClassInstance::Call`: emplace each formal
parameter with its actual argument into a fresh closure. -/
def bindParams (formals : List String) (args : List ObjRef) : Closure :=
  (formals.zip args).foldl (fun c p => emplaceName c p.1 p.2) []

/-- VariableValue::Execute: resolve a dotted chain in a copy of the closure;
each non-terminal segment must be bound to a ClassInstance whose fields
become the closure for the rest of the chain.  (The empty-chain case is the
unreachable `return {}` after the loop.) -/
def execVarValue (h : List Value) : Closure → List String → Except String ObjRef
  | _, [] => .ok ObjRef.none
  | env, [x] =>
    match lookupName env x with
    | some r => .ok r
    | none => .error ("Not field" ++ x)
  | env, x :: rest =>
    match lookupName env x with
    | none => .error ("Not field" ++ x)
    | some r =>
      match r with
      | .addr a =>
        match h.get? a with
        | some (.inst _ fields) => execVarValue h fields rest
        | _ => .error "This isn't object"
      | ObjRef.none => .error "This isn't object"

/-- The text `ClassInstance::Print` writes when no `__str__` method exists:
the instance's address stands in for the printed `this` pointer. -/
def instText (a : Addr) : String := "<ClassInstance " ++ toString a ++ ">"

/-! ### Results of execution

The C++ control flow is made explicit: `ok` is a normal `Execute` return,
`ret` is the thrown `ObjectHolder` of `Return::Execute` (caught only by
`MethodBody`), `err` is a thrown `runtime_error`, and `timeout` means the
fuel bound was exhausted. -/

/-- Result of executing one statement (the caller's closure is threaded
through, since `Execute` takes it by reference). -/
inductive ERes where
  | ok (r : ObjRef) (env : Closure) (s : State)
  | ret (r : ObjRef) (env : Closure) (s : State)
  | err (m : String) (env : Closure) (s : State)
  | timeout

/-- Result of evaluating an argument list. -/
inductive LRes where
  | ok (rs : List ObjRef) (env : Closure) (s : State)
  | ret (r : ObjRef) (env : Closure) (s : State)
  | err (m : String) (env : Closure) (s : State)
  | timeout

/-- Result of a method call (`ClassInstance::Call` builds its own closure,
so none is returned). -/
inductive MRes where
  | ok (r : ObjRef) (s : State)
  | ret (r : ObjRef) (s : State)
  | err (m : String) (s : State)
  | timeout

/-- Result of printing one object. -/
inductive PRes where
  | ok (s : State)
  | ret (r : ObjRef) (s : State)
  | err (m : String) (s : State)
  | timeout

mutual

/-- Statement::Execute (statement.cpp), one constructor per node kind.  All
recursion is bounded by the fuel counter, which decreases on every nested
call. -/
def exec (fuel : Nat) (stmt : Stmt) (env : Closure) (s : State) : ERes :=
  match fuel with
  | 0 => .timeout
  | fuel + 1 =>
    match stmt with
    | .valueConst a => .ok (.addr a) env s
    | .variableValue ids =>
      match execVarValue s.heap env ids with
      | .ok r => .ok r env s
      | .error m => .err m env s
    | .assignment v rv =>
      match exec fuel rv env s with
      | .ok r env' s' => .ok r (setName env' v r) s'
      | other => other
    | .fieldAssignment ids f rv =>
      match execVarValue s.heap env ids with
      | .error m => .err m env s
      | .ok r =>
        match instAddrOf s.heap r with
        | some a =>
          match exec fuel rv env s with
          | .ok v env' s' => .ok v env' (setField s' a f v)
          | other => other
        | none => .ok ObjRef.none env s
    | .noneStmt => .ok ObjRef.none env s
    | .print args =>
      match printArgs fuel args env s with
      | .ok _ env' s' => .ok ObjRef.none env' (pushOut s' "\n")
      | other => other
    | .methodCall obj m args =>
      match exec fuel obj env s with
      | .ok r env' s' =>
        match instAddrOf s'.heap r with
        | some a =>
          match evalArgs fuel args env' s' with
          | .ok params env'' s'' =>
            match callMethod fuel a m params s'' with
            | .ok r2 s3 => .ok r2 env'' s3
            | .ret r2 s3 => .ret r2 env'' s3
            | .err msg s3 => .err msg env'' s3
            | .timeout => .timeout
          | .ret r2 e2 s2 => .ret r2 e2 s2
          | .err m2 e2 s2 => .err m2 e2 s2
          | .timeout => .timeout
        | none => .ok ObjRef.none env' s'
      | other => other
    | .newInstance cls a args =>
      if hasMethod cls "__init__" args.length then
        match evalArgs fuel args env s with
        | .ok params env' s' =>
          match callMethod fuel a "__init__" params s' with
          | .ok _ s'' => .ok (.addr a) env' s''
          | .ret r2 s'' => .ret r2 env' s''
          | .err m s'' => .err m env' s''
          | .timeout => .timeout
        | .ret r2 e2 s2 => .ret r2 e2 s2
        | .err m2 e2 s2 => .err m2 e2 s2
        | .timeout => .timeout
      else .ok (.addr a) env s
    | .div l r =>
      match exec fuel l env s with
      | .ok rl env' s' =>
        match exec fuel r env' s' with
        | .ok rr env'' s'' =>
          match getNum s''.heap rl, getNum s''.heap rr with
          | some a, some b =>
            if b ≠ 0 then
              .ok (.addr s''.heap.length) env'' (alloc s'' (.num (Int.tdiv a b)))
            else .err "The denominator is zero" env'' s''
          | _, _ => .err "The operator is not overloaded /" env'' s''
        | other => other
      | other => other
    | .orStmt l r =>
      match exec fuel l env s with
      | .ok rl env' s' =>
        if !(isTrue s' rl) then
          match exec fuel r env' s' with
          | .ok rr env'' s'' =>
            .ok (.addr s''.heap.length) env'' (alloc s'' (.bool (isTrue s'' rr)))
          | other => other
        else .ok (.addr s'.heap.length) env' (alloc s' (.bool true))
      | other => other
    | .andStmt l r =>
      match exec fuel l env s with
      | .ok rl env' s' =>
        if isTrue s' rl then
          match exec fuel r env' s' with
          | .ok rr env'' s'' =>
            .ok (.addr s''.heap.length) env'' (alloc s'' (.bool (isTrue s'' rr)))
          | other => other
        else .ok (.addr s'.heap.length) env' (alloc s' (.bool false))
      | other => other
    | .compound stmts => execSeq fuel stmts env s
    | .methodBody b =>
      match exec fuel b env s with
      | .ok _ env' s' => .ok ObjRef.none env' s'
      | .ret r env' s' => .ok r env' s'
      | other => other
    | .returnStmt e =>
      match exec fuel e env s with
      | .ok r env' s' => .ret r env' s'
      | other => other
    | .ifElse c tBr eBr =>
      match exec fuel c env s with
      | .ok rc env' s' =>
        if isTrue s' rc then exec fuel tBr env' s'
        else
          match eBr with
          | some e => exec fuel e env' s'
          | none => .ok ObjRef.none env' s'
      | other => other

/-- The statement loop of `Compound::Execute`: run the children in order
(discarding their values), return the empty reference. -/
def execSeq (fuel : Nat) (stmts : List Stmt) (env : Closure) (s : State) : ERes :=
  match fuel with
  | 0 => .timeout
  | fuel + 1 =>
    match stmts with
    | [] => .ok ObjRef.none env s
    | x :: xs =>
      match exec fuel x env s with
      | .ok _ env' s' => execSeq fuel xs env' s'
      | other => other

/-- The left-to-right argument-evaluation loops of `MethodCall::Execute`
and `NewInstance::Execute`. -/
def evalArgs (fuel : Nat) (args : List Stmt) (env : Closure) (s : State) : LRes :=
  match fuel with
  | 0 => .timeout
  | fuel + 1 =>
    match args with
    | [] => .ok [] env s
    | x :: xs =>
      match exec fuel x env s with
      | .ok r env' s' =>
        match evalArgs fuel xs env' s' with
        | .ok rs env'' s'' => .ok (r :: rs) env'' s''
        | other => other
      | .ret r2 e2 s2 => .ret r2 e2 s2
      | .err m2 e2 s2 => .err m2 e2 s2
      | .timeout => .timeout

/-- The argument loop of `Print::Execute`: print each value (or the literal
`None` for an empty reference), with a single-space separator between
arguments. -/
def printArgs (fuel : Nat) (args : List Stmt) (env : Closure) (s : State) : ERes :=
  match fuel with
  | 0 => .timeout
  | fuel + 1 =>
    match args with
    | [] => .ok ObjRef.none env s
    | x :: xs =>
      match exec fuel x env s with
      | .ok r env' s' =>
        match
          (match r with
           | ObjRef.none => PRes.ok (pushOut s' "None")
           | .addr a => printObj fuel a s') with
        | .ok s'' =>
          match xs with
          | [] => printArgs fuel xs env' s''
          | _ :: _ => printArgs fuel xs env' (pushOut s'' " ")
        | .ret r2 s'' => .ret r2 env' s''
        | .err m s'' => .err m env' s''
        | .timeout => .timeout
      | other => other

/-- Object::Print of the object at address `a`: decimal for numbers, raw
text for strings, `True`/`False` for booleans, `Class ` and the name for a
class, and for an instance either the printed result of its zero-argument
`__str__` or the instance's identity (`ClassInstance::Print`). -/
def printObj (fuel : Nat) (a : Addr) (s : State) : PRes :=
  match fuel with
  | 0 => .timeout
  | fuel + 1 =>
    match s.heap.get? a with
    | some (.num v) => .ok (pushOut s (toString v))
    | some (.str t) => .ok (pushOut s t)
    | some (.bool b) => .ok (pushOut s (if b then "True" else "False"))
    | some (.cls c) => .ok (pushOut (pushOut s "Class ") c.name)
    | some (.inst c _) =>
      if hasMethod c "__str__" 0 then
        match callMethod fuel a "__str__" [] s with
        | .ok (ObjRef.addr a') s' => printObj fuel a' s'
        | .ok ObjRef.none s' => .err "Print through an empty reference" s'
        | .ret r s' => .ret r s'
        | .err m s' => .err m s'
        | .timeout => .timeout
      else .ok (pushOut s (instText a))
    | none => .err "dangling reference" s

/-- ClassInstance::Call: resolve the method, require the exact arity, bind
the formal parameters and `self` in a fresh closure, and execute the body.
A failing resolution or arity mismatch throws `No method`. -/
def callMethod (fuel : Nat) (a : Addr) (m : String) (params : List ObjRef)
    (s : State) : MRes :=
  match fuel with
  | 0 => .timeout
  | fuel + 1 =>
    match s.heap.get? a with
    | some (.inst c _) =>
      match getMethod c m with
      | some meth =>
        if meth.formalParams.length = params.length then
          match exec fuel meth.body
              (emplaceName (bindParams meth.formalParams params) "self" (.addr a)) s with
          | .ok r _ s' => .ok r s'
          | .ret r _ s' => .ret r s'
          | .err msg _ s' => .err msg s'
          | .timeout => .timeout
        else .err ("No method " ++ m) s
      | none => .err ("No method " ++ m) s
    | _ => .err ("No method " ++ m) s

end

/-- Result of a comparison helper: a boolean, or one of the non-local
outcomes a user-defined comparison method can produce. -/
inductive BRes where
  | ok (b : Bool) (s : State)
  | ret (r : ObjRef) (s : State)
  | err (m : String) (s : State)
  | timeout

/-- runtime::Less.  The both-empty branch of the source constructs a
`runtime_error` object but does not throw it, so execution falls through to
the typed comparisons below; two empty references match none of them and
reach the final throw.  Numbers, strings and booleans compare with `<`
(booleans as `false < true`); otherwise a ClassInstance left operand with a
unary `__lt__` dispatches to it and coerces the result to a truth value. -/
def less (fuel : Nat) (lhs rhs : ObjRef) (s : State) : BRes :=
  match getNum s.heap lhs, getNum s.heap rhs with
  | some a, some b => .ok (decide (a < b)) s
  | _, _ =>
    match getStr s.heap lhs, getStr s.heap rhs with
    | some a, some b => .ok (decide (a < b)) s
    | _, _ =>
      match getBool s.heap lhs, getBool s.heap rhs with
      | some a, some b => .ok (!a && b) s
      | _, _ =>
        match instAddrOf s.heap lhs with
        | some a =>
          match s.heap.get? a with
          | some (.inst c _) =>
            if hasMethod c "__lt__" 1 then
              match callMethod fuel a "__lt__" [rhs] s with
              | .ok r s' => .ok (isTrue s' r) s'
              | .ret r s' => .ret r s'
              | .err m s' => .err m s'
              | .timeout => .timeout
            else .err "Cannot compare objects for less" s
          | _ => .err "Cannot compare objects for less" s
        | none => .err "Cannot compare objects for less" s

/-! ## Claim C3

`Less` on two empty references: the source builds a `runtime_error` in the
both-empty branch without throwing it, but the fall-through reaches no typed
comparison (an empty handle satisfies no `TryAs`), so the trailing throw
fires: the call always fails and never produces a boolean. -/

/-- C3: for every fuel and state, `Less` applied to two empty references
fails with the `Cannot compare objects for less` error; in particular it
never returns a boolean result. -/
theorem C3_less_none_none_fails (fuel : Nat) (s : State) :
    less fuel ObjRef.none ObjRef.none s =
      .err "Cannot compare objects for less" s := rfl

/-! ## Claim C9

Return-as-unwind: `Return::Execute` throws the evaluated reference; the
unwind passes through `Compound` and `IfElse` unchanged and only
`MethodBody::Execute` catches it (returning the unwound value); a normally
finishing body makes `MethodBody` return the empty reference. -/

/-- C9: (1) `Return` evaluates its expression and triggers the unwind
carrying the result; (2) a `Compound` whose first statement unwinds
propagates the unwind unchanged (skipping the rest); (3) an `IfElse` whose
taken branch unwinds propagates it unchanged; (4) `MethodBody` catches the
unwind and returns its payload; (5) a `MethodBody` whose body finishes
normally returns the empty reference. -/
theorem C9_return_unwind :
    (∀ fuel e env s r env' s', exec fuel e env s = .ok r env' s' →
      exec (fuel + 1) (.returnStmt e) env s = .ret r env' s') ∧
    (∀ fuel x xs env s r env' s', exec fuel x env s = .ret r env' s' →
      exec (fuel + 2) (.compound (x :: xs)) env s = .ret r env' s') ∧
    (∀ fuel c tBr eBr env s rc env' s' r env'' s'',
      exec fuel c env s = .ok rc env' s' → isTrue s' rc = true →
      exec fuel tBr env' s' = .ret r env'' s'' →
      exec (fuel + 1) (.ifElse c tBr eBr) env s = .ret r env'' s'') ∧
    (∀ fuel b env s r env' s', exec fuel b env s = .ret r env' s' →
      exec (fuel + 1) (.methodBody b) env s = .ok r env' s') ∧
    (∀ fuel b env s r env' s', exec fuel b env s = .ok r env' s' →
      exec (fuel + 1) (.methodBody b) env s = .ok ObjRef.none env' s') := by
  refine ⟨?_, ?_, ?_, ?_, ?_⟩
  · intro fuel e env s r env' s' h
    simp only [exec, h]
  · intro fuel x xs env s r env' s' h
    simp only [exec, execSeq, h]
  · intro fuel c tBr eBr env s rc env' s' r env'' s'' hc ht hbr
    simp only [exec, hc, ht, if_true, hbr]
  · intro fuel b env s r env' s' h
    simp only [exec, h]
  · intro fuel b env s r env' s' h
    simp only [exec, h]

/-- Witness for C9: a `MethodBody` over `return <constant at address 5>`
returns the unwound reference. -/
theorem C9_witness :
    exec 2 (.returnStmt (.valueConst 5)) [] ⟨[], []⟩ =
      .ret (.addr 5) [] ⟨[], []⟩ ∧
    exec 3 (.methodBody (.returnStmt (.valueConst 5))) [] ⟨[], []⟩ =
      .ok (.addr 5) [] ⟨[], []⟩ :=
  ⟨rfl, C9_return_unwind.2.2.2.1 2 (.returnStmt (.valueConst 5)) [] ⟨[], []⟩
    (.addr 5) [] ⟨[], []⟩ rfl⟩

/-! ## Claim C6

Short-circuit `And`/`Or`: when the left operand decides the result the right
operand is never executed (its side effects, e.g. `Print` output, do not
occur), and the result is always a freshly owned `Bool` (allocated at the
end of the heap), never the original operand. -/

/-- C6: (1) `And` with a falsy left operand does not execute the right
operand — the final state is the state after the left operand extended only
by the fresh `Bool(false)` cell, with the output untouched; (2) symmetric
for `Or` with a truthy left operand and `Bool(true)`; (3) `And` with a
truthy left operand executes the right operand and returns a fresh
`Bool(IsTrue(rhs))`; (4) symmetric for `Or` with a falsy left operand. -/
theorem C6_short_circuit :
    (∀ fuel l r env s rl env' s', exec fuel l env s = .ok rl env' s' →
      isTrue s' rl = false →
      exec (fuel + 1) (.andStmt l r) env s =
        .ok (.addr s'.heap.length) env' (alloc s' (.bool false)) ∧
      (alloc s' (.bool false)).output = s'.output) ∧
    (∀ fuel l r env s rl env' s', exec fuel l env s = .ok rl env' s' →
      isTrue s' rl = true →
      exec (fuel + 1) (.orStmt l r) env s =
        .ok (.addr s'.heap.length) env' (alloc s' (.bool true)) ∧
      (alloc s' (.bool true)).output = s'.output) ∧
    (∀ fuel l r env s rl env' s' rr env'' s'', exec fuel l env s = .ok rl env' s' →
      isTrue s' rl = true → exec fuel r env' s' = .ok rr env'' s'' →
      exec (fuel + 1) (.andStmt l r) env s =
        .ok (.addr s''.heap.length) env'' (alloc s'' (.bool (isTrue s'' rr)))) ∧
    (∀ fuel l r env s rl env' s' rr env'' s'', exec fuel l env s = .ok rl env' s' →
      isTrue s' rl = false → exec fuel r env' s' = .ok rr env'' s'' →
      exec (fuel + 1) (.orStmt l r) env s =
        .ok (.addr s''.heap.length) env'' (alloc s'' (.bool (isTrue s'' rr)))) := by
  refine ⟨?_, ?_, ?_, ?_⟩
  · intro fuel l r env s rl env' s' h1 h2
    refine ⟨?_, rfl⟩
    simp only [exec, h1, h2]
    simp
  · intro fuel l r env s rl env' s' h1 h2
    refine ⟨?_, rfl⟩
    simp only [exec, h1, h2]
    simp
  · intro fuel l r env s rl env' s' rr env'' s'' h1 h2 h3
    simp only [exec, h1, h2, if_true, h3]
  · intro fuel l r env s rl env' s' rr env'' s'' h1 h2 h3
    simp only [exec, h1, h2, Bool.not_false, if_true, h3]

/-- Witness for C6: with the falsy constant at address 0 on the left and a
`print` of the string at address 1 on the right, `And` yields a fresh
`Bool(false)` and the output stays empty (the print never runs); with a
truthy left constant, `Or` yields a fresh `Bool(true)` and the output also
stays empty. -/
theorem C6_witness :
    exec 3 (.andStmt (.valueConst 0) (.print [.valueConst 1])) []
        ⟨[Value.num 0, Value.str "side"], []⟩ =
      .ok (.addr 2) [] ⟨[Value.num 0, Value.str "side", Value.bool false], []⟩ ∧
    exec 3 (.orStmt (.valueConst 0) (.print [.valueConst 1])) []
        ⟨[Value.num 3, Value.str "side"], []⟩ =
      .ok (.addr 2) [] ⟨[Value.num 3, Value.str "side", Value.bool true], []⟩ :=
  ⟨(C6_short_circuit.1 2 (.valueConst 0) (.print [.valueConst 1]) []
      ⟨[Value.num 0, Value.str "side"], []⟩ (.addr 0) []
      ⟨[Value.num 0, Value.str "side"], []⟩ rfl rfl).1,
    (C6_short_circuit.2.1 2 (.valueConst 0) (.print [.valueConst 1]) []
      ⟨[Value.num 3, Value.str "side"], []⟩ (.addr 0) []
      ⟨[Value.num 3, Value.str "side"], []⟩ rfl rfl).1⟩

/-! ## Claim C7

Integer division: both operands must be Numbers; a zero divisor is a domain
error; the quotient is truncated toward zero (the C++ `/` on `int`). -/

/-- C7: with both operands evaluating to Numbers, `Div` returns a freshly
owned Number holding the quotient truncated toward zero when the divisor is
nonzero, and fails with the zero-denominator error when the divisor is the
Number 0; when either operand is not a Number it fails with the
not-overloaded error.  Truncation toward zero at the claim's examples:
`7 / 2 = 3` and `-7 / 2 = -3`. -/
theorem C7_div_semantics :
    (∀ fuel l r env s rl env' s' rr env'' s'' a b,
      exec fuel l env s = .ok rl env' s' →
      exec fuel r env' s' = .ok rr env'' s'' →
      getNum s''.heap rl = some a → getNum s''.heap rr = some b →
        (b ≠ 0 → exec (fuel + 1) (.div l r) env s =
          .ok (.addr s''.heap.length) env'' (alloc s'' (.num (Int.tdiv a b)))) ∧
        (b = 0 → exec (fuel + 1) (.div l r) env s =
          .err "The denominator is zero" env'' s'')) ∧
    (∀ fuel l r env s rl env' s' rr env'' s'',
      exec fuel l env s = .ok rl env' s' →
      exec fuel r env' s' = .ok rr env'' s'' →
      (getNum s''.heap rl = Option.none ∨ getNum s''.heap rr = Option.none) →
      exec (fuel + 1) (.div l r) env s =
        .err "The operator is not overloaded /" env'' s'') ∧
    Int.tdiv 7 2 = 3 ∧ Int.tdiv (-7) 2 = -3 := by
  refine ⟨?_, ?_, by decide, by decide⟩
  · intro fuel l r env s rl env' s' rr env'' s'' a b h1 h2 ha hb
    constructor
    · intro hbz
      simp only [exec, h1, h2, ha, hb, if_pos hbz]
    · intro hbz
      subst hbz
      simp only [exec, h1, h2, ha, hb]
      simp
  · intro fuel l r env s rl env' s' rr env'' s'' h1 h2 h3
    rcases h3 with h | h
    · cases hg : getNum s''.heap rr with
      | none => simp only [exec, h1, h2, h, hg]
      | some b => simp only [exec, h1, h2, h, hg]
    · cases hg : getNum s''.heap rl with
      | none => simp only [exec, h1, h2, h, hg]
      | some a => simp only [exec, h1, h2, h, hg]

/-- Witness for C7: the node-owned constants `-7` and `2` divide to a fresh
Number `-3` (truncation toward zero). -/
theorem C7_witness :
    exec 3 (.div (.valueConst 0) (.valueConst 1)) []
        ⟨[Value.num (-7), Value.num 2], []⟩ =
      .ok (.addr 2) [] ⟨[Value.num (-7), Value.num 2, Value.num (-3)], []⟩ :=
  (C7_div_semantics.1 2 (.valueConst 0) (.valueConst 1) []
    ⟨[Value.num (-7), Value.num 2], []⟩ (.addr 0) []
    ⟨[Value.num (-7), Value.num 2], []⟩ (.addr 1) []
    ⟨[Value.num (-7), Value.num 2], []⟩ (-7) 2 rfl rfl rfl rfl).1 (by decide)

/-! ## Claim C8

Method resolution: own methods first in declaration order, then the parent
chain; the first match by name wins regardless of arity; `HasMethod(m, k)`
holds iff the first `m` found has exactly `k` formal parameters. -/

/-- C8: (1) a method found in the class's own list shadows anything in the
parent, whatever its arity; (2) when the own list has no match, resolution
is exactly resolution in the parent; (3) the own-list scan takes the first
method with a matching name in declaration order; (4) `HasMethod(n, k)`
holds iff resolution finds a method whose formal-parameter count is `k`. -/
theorem C8_method_resolution :
    (∀ nameB msB A n m, findMethod msB n = some m →
      getMethod (.mk nameB msB (some A)) n = some m) ∧
    (∀ nameB msB A n, findMethod msB n = Option.none →
      getMethod (.mk nameB msB (some A)) n = getMethod A n) ∧
    (∀ m ms n, m.name = n → findMethod (m :: ms) n = some m) ∧
    (∀ c n k, hasMethod c n k = true ↔
      ∃ m, getMethod c n = some m ∧ m.formalParams.length = k) := by
  refine ⟨?_, ?_, ?_, ?_⟩
  · intro nameB msB A n m h
    simp only [getMethod, h]
  · intro nameB msB A n h
    simp only [getMethod, h]
  · intro m ms n h
    simp only [findMethod, h, if_pos]
  · intro c n k
    unfold hasMethod
    cases hg : getMethod c n with
    | none =>
      simp only [Bool.false_eq_true, false_iff]
      rintro ⟨m, hm, _⟩
      cases hm
    | some meth =>
      simp only [decide_eq_true_eq]
      constructor
      · intro h; exact ⟨meth, rfl, h⟩
      · rintro ⟨m, hm, hk⟩
        cases hm
        exact hk

/-- Witness for C8: `B` with `m(x)` inheriting from `A` with `m(x, y)`:
resolution on `B` finds `B`'s one-parameter `m` (so `HasMethod("m", 1)` and
not `HasMethod("m", 2)`), while a class `B2` without an own `m` resolves to
`A`'s two-parameter version. -/
theorem C8_witness :
    getMethod (.mk "B" [.mk "m" ["x"] .noneStmt]
        (some (.mk "A" [.mk "m" ["x", "y"] .noneStmt] Option.none))) "m" =
      some (.mk "m" ["x"] .noneStmt) ∧
    hasMethod (.mk "B" [.mk "m" ["x"] .noneStmt]
        (some (.mk "A" [.mk "m" ["x", "y"] .noneStmt] Option.none))) "m" 1 = true ∧
    hasMethod (.mk "B" [.mk "m" ["x"] .noneStmt]
        (some (.mk "A" [.mk "m" ["x", "y"] .noneStmt] Option.none))) "m" 2 = false ∧
    getMethod (.mk "B2" []
        (some (.mk "A" [.mk "m" ["x", "y"] .noneStmt] Option.none))) "m" =
      some (.mk "m" ["x", "y"] .noneStmt) :=
  ⟨C8_method_resolution.1 "B" [.mk "m" ["x"] .noneStmt]
      (.mk "A" [.mk "m" ["x", "y"] .noneStmt] Option.none) "m"
      (.mk "m" ["x"] .noneStmt) rfl,
    (C8_method_resolution.2.2.2 (.mk "B" [.mk "m" ["x"] .noneStmt]
        (some (.mk "A" [.mk "m" ["x", "y"] .noneStmt] Option.none))) "m" 1).mpr
      ⟨.mk "m" ["x"] .noneStmt, rfl, rfl⟩,
    rfl,
    C8_method_resolution.2.1 "B2" []
      (.mk "A" [.mk "m" ["x", "y"] .noneStmt] Option.none) "m" rfl⟩

/-! ## Claim C10

`FieldAssignment::Execute` evaluates the object chain; when the result is
not a ClassInstance it silently returns the empty reference without
evaluating the right-hand side, so no error is raised, no side effects of
the right-hand side occur, and neither the closure nor the state changes. -/

/-- C10: whenever the object chain of a `FieldAssignment` evaluates (in the
closure copy semantics of `VariableValue`) to a reference that is not a
ClassInstance, `Execute` returns the empty reference with the closure and
the whole state (heap and output) unchanged; the right-hand side is never
executed. -/
theorem C10_field_assignment_non_instance (fuel : Nat) (ids : List String)
    (f : String) (rv : Stmt) (env : Closure) (s : State) (r : ObjRef)
    (hobj : execVarValue s.heap env ids = .ok r)
    (hni : instAddrOf s.heap r = Option.none) :
    exec (fuel + 1) (.fieldAssignment ids f rv) env s =
      .ok ObjRef.none env s := by
  simp only [exec, hobj, hni]

/-- Witness for C10: assigning through `x` bound to a Number: the result is
the empty reference and the state is unchanged although the right-hand side
is a `print` (whose side effect would be visible in the output). -/
theorem C10_witness :
    exec 5 (.fieldAssignment ["x"] "y" (.print [.valueConst 0]))
        [("x", ObjRef.addr 0)] ⟨[Value.num 5], []⟩ =
      .ok ObjRef.none [("x", ObjRef.addr 0)] ⟨[Value.num 5], []⟩ :=
  C10_field_assignment_non_instance 4 ["x"] "y" (.print [.valueConst 0])
    [("x", ObjRef.addr 0)] ⟨[Value.num 5], []⟩ (.addr 0) rfl rfl

/-! ## Claim C2

`NewInstance::Execute` does not create a fresh instance: the node owns a
single `ClassInstance` member `cls_` (constructed with empty fields when the
node is built), runs `__init__` on that member when the arity matches, and
returns `ObjectHolder::Share(cls_)`.  Two executions of the same node hence
return the same instance, and the member's fields persist between
executions. -/

/-- Helper: a successful execution of a `NewInstance` node always returns
the reference to the node's stored member instance. -/
theorem newInstance_ok_ref (fuel : Nat) (cls : ClassT) (a : Addr)
    (args : List Stmt) (env env' : Closure) (s s' : State) (r : ObjRef)
    (h : exec (fuel + 1) (.newInstance cls a args) env s = .ok r env' s') :
    r = .addr a := by
  simp only [exec] at h
  split at h
  · cases hargs : evalArgs fuel args env s with
    | ok params e2 s2 =>
      simp only [hargs] at h
      cases hcall : callMethod fuel a "__init__" params s2 with
      | ok r3 s3 =>
        simp only [hcall, ERes.ok.injEq] at h
        exact h.1.symm
      | ret r3 s3 => simp only [hcall] at h; cases h
      | err m3 s3 => simp only [hcall] at h; cases h
      | timeout => simp only [hcall] at h; cases h
    | ret r2 e2 s2 => simp only [hargs] at h; cases h
    | err m2 e2 s2 => simp only [hargs] at h; cases h
    | timeout => simp only [hargs] at h; cases h
  · injection h with hr he hs
    exact hr.symm

/-- The class used by the C2 counterexample: `__init__` (no formal
parameters beyond the separately bound `self`) sets the field `x` of the
instance to the constant at heap address 0. -/
def C2exClass : ClassT :=
  .mk "D" [.mk "__init__" [] (.fieldAssignment ["self"] "x" (.valueConst 0))]
    Option.none

/-- Counterexample to C2 as stated: executing the same `NewInstance` node
twice does not produce two distinct instances with initially empty fields.
The node's member instance lives at address 1; the first execution runs
`__init__` (filling the field `x`) and returns address 1; the second
execution starts from a member whose fields are already non-empty, returns
the very same address 1, and allocates nothing (the heap length stays 2
throughout, so no fresh instance ever appears). -/
theorem C2_counterexample :
    exec 5 (.newInstance C2exClass 1 []) []
        ⟨[Value.num 7, Value.inst C2exClass []], []⟩ =
      .ok (.addr 1) []
        ⟨[Value.num 7, Value.inst C2exClass [("x", ObjRef.addr 0)]], []⟩ ∧
    exec 5 (.newInstance C2exClass 1 [])
        [] ⟨[Value.num 7, Value.inst C2exClass [("x", ObjRef.addr 0)]], []⟩ =
      .ok (.addr 1) []
        ⟨[Value.num 7, Value.inst C2exClass [("x", ObjRef.addr 0)]], []⟩ ∧
    (⟨[Value.num 7, Value.inst C2exClass [("x", ObjRef.addr 0)]], []⟩
        : State).heap.length = 2 :=
  ⟨rfl, rfl, rfl⟩

/-- C2, amended: every successful execution of a `NewInstance` node returns
a shared reference to the node's single stored `ClassInstance` member (the
address carried by the node), so two executions of the same node yield the
same instance, whose fields persist across executions, rather than two
distinct fresh instances. -/
theorem C2_new_instance_shares_member (fuel fuel2 : Nat) (cls : ClassT)
    (a : Addr) (args : List Stmt) (env env1 env2 : Closure) (s s1 s2 : State)
    (r1 r2 : ObjRef)
    (h1 : exec (fuel + 1) (.newInstance cls a args) env s = .ok r1 env1 s1)
    (h2 : exec (fuel2 + 1) (.newInstance cls a args) env1 s1 = .ok r2 env2 s2) :
    r1 = .addr a ∧ r2 = .addr a ∧ r1 = r2 := by
  have e1 := newInstance_ok_ref fuel cls a args env env1 s s1 r1 h1
  have e2 := newInstance_ok_ref fuel2 cls a args env1 env2 s1 s2 r2 h2
  exact ⟨e1, e2, e1.trans e2.symm⟩

/-- Witness for C2: the amended statement at the counterexample scenario —
both executions of the node return the member's address 1. -/
theorem C2_witness :
    (ObjRef.addr 1 : ObjRef) = .addr 1 ∧ (ObjRef.addr 1 : ObjRef) = .addr 1 ∧
      (ObjRef.addr 1 : ObjRef) = ObjRef.addr 1 :=
  C2_new_instance_shares_member 4 4 C2exClass 1 [] [] [] []
    ⟨[Value.num 7, Value.inst C2exClass []], []⟩
    ⟨[Value.num 7, Value.inst C2exClass [("x", ObjRef.addr 0)]], []⟩
    ⟨[Value.num 7, Value.inst C2exClass [("x", ObjRef.addr 0)]], []⟩
    (.addr 1) (.addr 1) rfl rfl

end Mython
